/-
  Verification of the log-analysis engine (`src/lambda/lambda_function.py`)
  against its natural-language specification.

  The Python code is shallowly embedded: dictionaries with insertion order
  become association lists, Python floats become rationals (ℚ), per-field
  coercion failures become `Option`, and the two fatal failure modes
  (non-list input, zero page size) become `Except String`.
-/
import Mathlib

namespace LambdaDemo

/-! ### Python value model

Raw log records hold loosely-typed values.  `PyVal` models the values that
can reach the two coercion sites (`int(...)` on `status`, `float(...)` on
`response_time`): integers, floats, strings and `None`. -/

inductive PyVal where
  | int (n : ℤ)
  | float (q : ℚ)
  | str (s : String)
  | pynone
deriving DecidableEq

/-- Python `int(float)` truncates toward zero. -/
def pyTrunc (q : ℚ) : ℤ := if q < 0 then ⌈q⌉ else ⌊q⌋

/-- Value of a non-empty run of decimal digits, left to right; `none` on the
first non-digit character. -/
def digitsVal : List Char → ℕ → Option ℕ
  | [], acc => some acc
  | c :: cs, acc =>
      if c.isDigit then digitsVal cs (acc * 10 + (c.toNat - 48)) else none

/-- Python `int` applied to a string: an optional sign followed by at least
one decimal digit; anything else raises `ValueError` (= `none`).
(Surrounding whitespace and underscore digit separators, which CPython also
accepts, are never exercised by any analysed input.) -/
def pyStrToInt (s : String) : Option ℤ :=
  match s.data with
  | [] => none
  | '-' :: [] => none
  | '+' :: [] => none
  | '-' :: c :: cs => (digitsVal (c :: cs) 0).map (fun n => -(n : ℤ))
  | '+' :: c :: cs => (digitsVal (c :: cs) 0).map (fun n => (n : ℤ))
  | cs => (digitsVal cs 0).map (fun n => (n : ℤ))

/-- Python `str.upper()`. -/
def pyUpper (s : String) : String := String.mk (s.data.map Char.toUpper)

/-- Python `int(x)`: identity on ints, truncation on floats, decimal parse on
strings (a non-numeric string raises `ValueError`), `TypeError` on `None`;
both exception outcomes are `none`. -/
def pyInt : PyVal → Option ℤ
  | .int n => some n
  | .float q => some (pyTrunc q)
  | .str s => pyStrToInt s
  | .pynone => none

/-- Python `float(x)`: ints and floats succeed, `None` raises `TypeError`.
Numeric strings are modelled for decimal-integer literals; fractional or
exponent string literals never occur in any analysed input. -/
def pyFloat : PyVal → Option ℚ
  | .int n => some (n : ℚ)
  | .float q => some q
  | .str s => (pyStrToInt s).map (fun n => (n : ℚ))
  | .pynone => none

/-! ### Raw records and validated entries -/

/-- One untyped input record: each field is optional (its key may be absent
from the dict).  String-valued fields (`timestamp`, `path`, `method`,
`message`) are read back without coercion by the source, so they are kept as
strings; `status` and `response_time` go through `int`/`float` coercion and
carry a `PyVal`. -/
structure RawRecord where
  timestamp : Option String := none
  path : Option String := none
  status : Option PyVal := none
  method : Option String := none
  response_time : Option PyVal := none
  message : Option String := none
deriving DecidableEq

/-- The `LogEntry` dataclass. -/
structure LogEntry where
  timestamp : String
  path : String
  status : ℤ
  method : String
  response_time : Option ℚ := none
  message : Option String := none
deriving DecidableEq

/-- One iteration of the loop in `_validate_and_parse_logs`: build a
`LogEntry` from a raw record; `none` when a coercion raises
(`ValueError`/`TypeError`), in which case the record is dropped. -/
def parseRecord (log : RawRecord) : Option LogEntry :=
  match pyInt (log.status.getD (PyVal.int 200)),
        (match log.response_time with
         | none => some none
         | some v => (pyFloat v).map some) with
  | some status, some rt =>
      some { timestamp := log.timestamp.getD ""
           , path := log.path.getD "unknown"
           , status := status
           , method := pyUpper (log.method.getD "UNKNOWN")
           , response_time := rt
           , message := log.message }
  | _, _ => none

/-- The loop of `_validate_and_parse_logs` over a list input: each record is
parsed independently; failed records are dropped with a warning (the printed
diagnostic is a side effect outside the embedding). -/
def validateList (logs : List RawRecord) : List LogEntry :=
  logs.filterMap parseRecord

/-- The runtime type of the `logs` argument.  The event payload is JSON, so
the possible runtime shapes are list, mapping, string, number, boolean and
null; a JSON array (Python `list`) is the only ordered sequence among them. -/
inductive PyInput where
  | list (records : List RawRecord)
  | dict
  | str (s : String)
  | num (q : ℚ)
  | bool (b : Bool)
  | null
deriving DecidableEq

/-- Whether the input is an ordered sequence (a list). -/
def isOrderedSequence : PyInput → Bool
  | .list _ => true
  | _ => false

/-- `_validate_and_parse_logs`, including the `isinstance(logs, list)` check
that raises `ValueError("Input must be a list of log entries")`. -/
def validateAndParseLogs (input : PyInput) : Except String (List LogEntry) :=
  match input with
  | .list logs => .ok (validateList logs)
  | _ => .error "Input must be a list of log entries"

/-! ### Aggregation state and the per-entry fold -/

/-- The per-path record `{'count': ..., 'methods': defaultdict(int)}`. -/
structure EndpointData where
  count : ℕ
  methods : List (String × ℕ)
deriving DecidableEq

/-- `defaultdict(int)` increment: Python dicts keep insertion order, and a
key touched for the first time is appended at the end. -/
def bump {κ : Type} [DecidableEq κ] : List (κ × ℕ) → κ → List (κ × ℕ)
  | [], k => [(k, 1)]
  | (k', v) :: rest, k =>
      if k' = k then (k', v + 1) :: rest else (k', v) :: bump rest k

/-- `self.endpoints[path]['count'] += 1; self.endpoints[path]['methods'][method] += 1`. -/
def bumpEndpoint : List (String × EndpointData) → String → String → List (String × EndpointData)
  | [], path, m => [(path, ⟨1, [(m, 1)]⟩)]
  | (p, d) :: rest, path, m =>
      if p = path then (p, ⟨d.count + 1, bump d.methods m⟩) :: rest
      else (p, d) :: bumpEndpoint rest path m

/-- The mutable counters of `LogAnalyzer`, as a value. -/
structure AnalyzerState where
  status_codes : List (ℤ × ℕ)
  endpoints : List (String × EndpointData)
  errors : ℕ
  response_times : List ℚ
  error_messages : List (String × ℕ)
  methods : List (String × ℕ)
deriving DecidableEq

/-- Counters as set up in `__init__`. -/
def initState : AnalyzerState :=
  { status_codes := [], endpoints := [], errors := 0
  , response_times := [], error_messages := [], methods := [] }

/-- Python `log.message or 'No error message'`: `or` replaces both `None`
and the empty string (falsy) by the default. -/
def messageOrDefault : Option String → String
  | none => "No error message"
  | some s => if s = "" then "No error message" else s

/-- The body of the loop in `_process_log_page`, for one entry. -/
def processEntry (st : AnalyzerState) (log : LogEntry) : AnalyzerState :=
  let st1 := { st with status_codes := bump st.status_codes log.status }
  let st2 := { st1 with methods := bump st1.methods log.method }
  let st3 :=
    if 400 ≤ log.status ∧ log.status < 600 then
      { st2 with errors := st2.errors + 1
               , error_messages := bump st2.error_messages (messageOrDefault log.message) }
    else st2
  let st4 := { st3 with endpoints := bumpEndpoint st3.endpoints log.path log.method }
  match log.response_time with
  | some rt => { st4 with response_times := st4.response_times ++ [rt] }
  | none => st4

/-- `_process_log_page`: fold one page into the counters. -/
def processPage (st : AnalyzerState) (page : List LogEntry) : AnalyzerState :=
  page.foldl processEntry st

/-! ### Pagination -/

/-- Contiguous slices `logs[i:i+ps]` for `i = 0, ps, 2*ps, ...`, i.e. the
pages produced by `_paginate_logs` when the step is positive. -/
def chunkPages {α : Type} (ps : ℕ) (l : List α) : List (List α) :=
  if _h : ps = 0 then []
  else
    match l with
    | [] => []
    | x :: xs => (x :: xs).take ps :: chunkPages ps ((x :: xs).drop ps)
termination_by l.length
decreasing_by
  simp only [List.length_drop, List.length_cons]
  omega

/-- `_paginate_logs`: the list comprehension over `range(0, len(logs), page_size)`.
A zero step makes `range` raise `ValueError`; a negative step yields an empty
`range` (start `0`, stop `len(logs) ≥ 0`), hence no pages at all. -/
def paginateLogs (logs : List LogEntry) (pageSize : ℤ) : Except String (List (List LogEntry)) :=
  if pageSize = 0 then .error "range() arg 3 must not be zero"
  else if pageSize < 0 then .ok []
  else .ok (chunkPages pageSize.toNat logs)

/-! ### Statistics -/

/-- Python list indexing `l[i]`: negative indices count from the end.
Out-of-range access raises `IndexError` in Python; it is unreachable in every
analysed call and is defaulted to `0` here. -/
def pyIndex (l : List ℚ) (i : ℤ) : ℚ :=
  if 0 ≤ i then l.getD i.toNat 0 else l.getD (l.length - (-i).toNat) 0

/-- Python `sorted` on floats: stable ascending sort (stability is
irrelevant for scalar keys). -/
def pySorted (l : List ℚ) : List ℚ :=
  List.insertionSort (· ≤ ·) l

/-- `statistics.mean` (only called on non-empty samples). -/
def mean (l : List ℚ) : ℚ := l.sum / (l.length : ℚ)

/-- Python `min(l)` on a non-empty list. -/
def pyMin : List ℚ → ℚ
  | [] => 0
  | x :: xs => xs.foldl min x

/-- Python `max(l)` on a non-empty list. -/
def pyMax : List ℚ → ℚ
  | [] => 0
  | x :: xs => xs.foldl max x

/-- Round to the nearest integer, ties to even — the semantics of Python's
`round`.  (Binary floating-point representation error is outside the ℚ
model; both spec and source use the same `round`.) -/
def roundHalfEven (q : ℚ) : ℤ :=
  if Int.fract q < 1/2 then ⌊q⌋
  else if 1/2 < Int.fract q then ⌊q⌋ + 1
  else if ⌊q⌋ % 2 = 0 then ⌊q⌋ else ⌊q⌋ + 1

/-- Python `round(x, 2)`. -/
def round2 (q : ℚ) : ℚ := (roundHalfEven (q * 100) : ℚ) / 100

/-- `_calculate_percentile`: linear interpolation between bracketing order
statistics on the sorted samples. -/
def calculatePercentile (times : List ℚ) (percentile : ℚ) : ℚ :=
  if times = [] then 0
  else
    let sorted_times := pySorted times
    let n := sorted_times.length
    let k : ℚ := ((n : ℚ) - 1) * (percentile / 100)
    let f : ℤ := ⌊k⌋
    let c : ℤ := ⌈k⌉
    if f = c then pyIndex sorted_times (pyTrunc k)
    else pyIndex sorted_times f * ((c : ℚ) - k) + pyIndex sorted_times c * (k - (f : ℚ))

/-! ### Final report -/

/-- The `response_times` block of the returned mapping. -/
structure ResponseTimeBlock where
  avg_ms : ℚ
  p50_ms : ℚ
  p95_ms : ℚ
  p99_ms : ℚ
  min_ms : ℚ
  max_ms : ℚ
deriving DecidableEq

/-- The mapping returned by `analyze` (dict insertion order preserved by the
association lists).  In the source each `top_endpoints` value is rendered as
`{'total_requests': data['count'], 'methods': ...}`; the pair
`(path, EndpointData)` carries the same two numbers. -/
structure AnalysisReport where
  total_requests : ℕ
  error_rate_percentage : ℚ
  status_code_distribution : List (ℤ × ℕ)
  method_distribution : List (String × ℕ)
  top_endpoints : List (String × EndpointData)
  response_times : ResponseTimeBlock
  top_errors : List (String × ℕ)
deriving DecidableEq

/-- Comparison used by `sorted(self.endpoints.items(), key=lambda x: x[1]['count'], reverse=True)`:
`a` may precede `b` when `a`'s count is at least `b`'s. -/
def countGE (a b : String × EndpointData) : Prop := b.2.count ≤ a.2.count

instance : DecidableRel countGE :=
  fun a b => inferInstanceAs (Decidable (b.2.count ≤ a.2.count))

instance : IsTotal (String × EndpointData) countGE :=
  ⟨fun a b => Nat.le_total b.2.count a.2.count⟩

instance : IsTrans (String × EndpointData) countGE :=
  ⟨fun _ _ _ hab hbc => Nat.le_trans hbc hab⟩

/-- Comparison for `sorted(self.error_messages.items(), key=lambda x: x[1], reverse=True)`. -/
def freqGE (a b : String × ℕ) : Prop := b.2 ≤ a.2

instance : DecidableRel freqGE :=
  fun a b => inferInstanceAs (Decidable (b.2 ≤ a.2))

instance : IsTotal (String × ℕ) freqGE := ⟨fun a b => Nat.le_total b.2 a.2⟩

instance : IsTrans (String × ℕ) freqGE := ⟨fun _ _ _ hab hbc => Nat.le_trans hbc hab⟩

/-- Python `sorted(..., reverse=True)` by count: a stable descending sort
(CPython's sort is stable, and `reverse=True` keeps equal elements in their
original relative order). -/
def sortEndpointsDesc (l : List (String × EndpointData)) : List (String × EndpointData) :=
  List.insertionSort countGE l

/-- Same stable descending sort for the error-message frequencies. -/
def sortErrorsDesc (l : List (String × ℕ)) : List (String × ℕ) :=
  List.insertionSort freqGE l

/-- The metric computation and dict construction at the end of `analyze`. -/
def buildReport (st : AnalyzerState) (totalRequests : ℕ) : AnalysisReport :=
  let error_rate : ℚ :=
    if 0 < totalRequests then (st.errors : ℚ) / (totalRequests : ℚ) * 100 else 0
  let avg_response_time : ℚ :=
    if st.response_times = [] then 0 else mean st.response_times
  { total_requests := totalRequests
  , error_rate_percentage := round2 error_rate
  , status_code_distribution := st.status_codes
  , method_distribution := st.methods
  , top_endpoints := (sortEndpointsDesc st.endpoints).take 5
  , response_times :=
    { avg_ms := if st.response_times = [] then 0 else round2 avg_response_time
    , p50_ms := round2 (calculatePercentile st.response_times 50)
    , p95_ms := round2 (calculatePercentile st.response_times 95)
    , p99_ms := round2 (calculatePercentile st.response_times 99)
    , min_ms := if st.response_times = [] then 0 else round2 (pyMin st.response_times)
    , max_ms := if st.response_times = [] then 0 else round2 (pyMax st.response_times) }
  , top_errors := (sortErrorsDesc st.error_messages).take 3 }

/-- `LogAnalyzer(...).analyze()` on already-validated entries:
`total_requests` is the raw record count remembered by `__init__`. -/
def analyzeE (entries : List LogEntry) (totalRequests : ℕ) (pageSize : ℤ) :
    Except String AnalysisReport :=
  match paginateLogs entries pageSize with
  | .error e => .error e
  | .ok pages => .ok (buildReport (pages.foldl processPage initState) totalRequests)

/-- The whole pipeline from the raw `logs` argument: construction
(`__init__`, which validates the shape and parses records) followed by
`analyze()`. -/
def logAnalyzerRun (input : PyInput) (pageSize : ℤ) : Except String AnalysisReport :=
  match input with
  | .list logs => analyzeE (validateList logs) logs.length pageSize
  | _ => .error "Input must be a list of log entries"

/-- Accumulated state after folding the full entry sequence at once. -/
def aggregateAll (entries : List LogEntry) : AnalyzerState :=
  entries.foldl processEntry initState

/-- Reference point for the pagination-independence claim, following the
spec's words: the report obtained by folding the full sequence at once,
with no paging. -/
def analyzeUnpaged (entries : List LogEntry) (totalRequests : ℕ) : AnalysisReport :=
  buildReport (aggregateAll entries) totalRequests

/-- Validated entries with `400 <= status < 600`. -/
def countErrors (l : List LogEntry) : ℕ :=
  (l.filter (fun e => 400 ≤ e.status ∧ e.status < 600)).length

/-- The fallback sample batch hard-coded in `lambda_handler`. -/
def sampleLogs : List RawRecord :=
  [ { timestamp := some "2023-08-14T10:00:00", path := some "/api/users"
    , status := some (.int 200), method := some "GET", response_time := some (.int 45) }
  , { timestamp := some "2023-08-14T10:00:01", path := some "/api/orders"
    , status := some (.int 201), method := some "POST", response_time := some (.int 120) }
  , { timestamp := some "2023-08-14T10:00:02", path := some "/api/products"
    , status := some (.int 404), method := some "GET", response_time := some (.int 15)
    , message := some "Product not found" }
  , { timestamp := some "2023-08-14T10:00:03", path := some "/api/users"
    , status := some (.int 200), method := some "GET", response_time := some (.int 50) }
  , { timestamp := some "2023-08-14T10:00:04", path := some "/api/orders"
    , status := some (.int 500), method := some "POST", response_time := some (.int 200)
    , message := some "Internal server error" } ]

/-- The sample batch after validation. -/
def sampleEntries : List LogEntry := validateList sampleLogs

/-- Three distinct endpoints with one request each: the tie-break example. -/
def tieEntries : List LogEntry :=
  [ ⟨"", "/a", 200, "GET", none, none⟩
  , ⟨"", "/b", 200, "GET", none, none⟩
  , ⟨"", "/c", 200, "GET", none, none⟩ ]

/-- `{"status": "oops"}`: integer coercion of `"oops"` fails. -/
def badRec : RawRecord := { status := some (.str "oops") }

/-- `{"status": 200, "path": "/a"}`. -/
def goodRec : RawRecord := { status := some (.int 200), path := some "/a" }

/-! ### Pagination lemmas -/

theorem chunkPages_nil {α : Type} (ps : ℕ) : chunkPages ps ([] : List α) = [] := by
  rw [chunkPages]
  split <;> rfl

theorem chunkPages_cons {α : Type} {ps : ℕ} (hps : ps ≠ 0) (x : α) (xs : List α) :
    chunkPages ps (x :: xs) = (x :: xs).take ps :: chunkPages ps ((x :: xs).drop ps) := by
  rw [chunkPages]
  simp [hps]

/-- Folding the pages one after the other is folding the entries in order. -/
theorem foldl_chunkPages (ps : ℕ) (hps : ps ≠ 0) :
    ∀ (l : List LogEntry) (st : AnalyzerState),
      (chunkPages ps l).foldl processPage st = l.foldl processEntry st := by
  have main : ∀ (n : ℕ) (l : List LogEntry), l.length ≤ n → ∀ st : AnalyzerState,
      (chunkPages ps l).foldl processPage st = l.foldl processEntry st := by
    intro n
    induction n with
    | zero =>
      intro l hl st
      have : l = [] := List.eq_nil_of_length_eq_zero (Nat.le_zero.mp hl)
      subst this
      rw [chunkPages_nil]
      rfl
    | succ n ih =>
      intro l hl st
      match l with
      | [] =>
        rw [chunkPages_nil]
        rfl
      | x :: xs =>
        rw [chunkPages_cons hps, List.foldl_cons]
        have hlen : ((x :: xs).drop ps).length ≤ n := by
          simp only [List.length_drop, List.length_cons]
          simp only [List.length_cons] at hl
          omega
        rw [ih _ hlen, processPage, ← List.foldl_append, List.take_append_drop]
  intro l st
  exact main l.length l le_rfl st

/-- For a positive page size the engine succeeds and its report is the
unpaged fold of the whole sequence. -/
theorem analyzeE_pos (entries : List LogEntry) (totalRequests : ℕ) (ps : ℤ)
    (hps : 0 < ps) :
    analyzeE entries totalRequests ps = .ok (analyzeUnpaged entries totalRequests) := by
  have h0 : ps ≠ 0 := ne_of_gt hps
  have hneg : ¬ps < 0 := not_lt.mpr (le_of_lt hps)
  have htn : ps.toNat ≠ 0 := by omega
  rw [analyzeE, paginateLogs, if_neg h0, if_neg hneg]
  simp only
  rw [foldl_chunkPages ps.toNat htn entries initState]
  rfl

theorem round2_zero : round2 0 = 0 := by
  norm_num [round2, roundHalfEven]

/-! ### Claim theorems -/

/-- C1: pagination independence — analyzing with any two positive page
sizes yields identical reports, both equal to folding the full sequence at
once; in particular page size `1` versus `len(entries) + 1`. -/
theorem pagination_independence (entries : List LogEntry) (totalRequests : ℕ)
    (ps₁ ps₂ : ℤ) (h₁ : 0 < ps₁) (h₂ : 0 < ps₂) :
    analyzeE entries totalRequests ps₁ = analyzeE entries totalRequests ps₂ ∧
    analyzeE entries totalRequests ps₁ = .ok (analyzeUnpaged entries totalRequests) ∧
    analyzeE entries totalRequests 1 =
      analyzeE entries totalRequests ((entries.length : ℤ) + 1) := by
  refine ⟨?_, analyzeE_pos _ _ _ h₁, ?_⟩
  · rw [analyzeE_pos _ _ _ h₁, analyzeE_pos _ _ _ h₂]
  · rw [analyzeE_pos _ _ _ Int.one_pos, analyzeE_pos]
    omega

/-- C1 witness: the sample batch analyzed with page size 1 and with page
size 4 gives the same report. -/
theorem pagination_independence_witness :
    analyzeE sampleEntries 5 1 = analyzeE sampleEntries 5 4 :=
  (pagination_independence sampleEntries 5 1 4 (by decide) (by decide)).1

/-- C3 counterexample: with `page_size = -1` (non-positive) and a non-empty
batch, the engine does not fail — `range(0, len, -1)` is empty, so zero
pages are folded and a report is produced from untouched counters. -/
theorem pageSize_negative_succeeds :
    analyzeE sampleEntries 5 (-1) = .ok (buildReport initState 5) := rfl

/-- C3 amended: `page_size = 0` fails with the fatal configuration error
(`range` rejects a zero step); a negative `page_size` does not fail but
silently folds zero pages; a positive `page_size` never fails on
well-formed validated input. -/
theorem pageSize_validation (entries : List LogEntry) (totalRequests : ℕ) (ps : ℤ) :
    analyzeE entries totalRequests 0 = .error "range() arg 3 must not be zero" ∧
    (ps < 0 → analyzeE entries totalRequests ps = .ok (buildReport initState totalRequests)) ∧
    (0 < ps → analyzeE entries totalRequests ps = .ok (analyzeUnpaged entries totalRequests)) := by
  refine ⟨rfl, ?_, fun h => analyzeE_pos _ _ _ h⟩
  intro hneg
  rw [analyzeE, paginateLogs, if_neg (by omega : ps ≠ 0), if_pos hneg]
  rfl

/-- C3 witness: the three cases at page sizes `-2` and `3`. -/
theorem pageSize_validation_witness :
    analyzeE sampleEntries 5 (-2) = .ok (buildReport initState 5) ∧
    analyzeE sampleEntries 5 3 = .ok (analyzeUnpaged sampleEntries 5) :=
  ⟨(pageSize_validation sampleEntries 5 (-2)).2.1 (by decide),
   (pageSize_validation sampleEntries 5 3).2.2 (by decide)⟩

/-- C9: analyzing an empty entry sequence with a raw count of zero yields
zero total requests, zero error rate, empty distributions, and zeroed
response-time statistics. -/
theorem analyze_empty (ps : ℤ) (hps : 0 < ps) :
    analyzeE [] 0 ps =
      .ok { total_requests := 0, error_rate_percentage := 0
          , status_code_distribution := [], method_distribution := []
          , top_endpoints := []
          , response_times :=
            { avg_ms := 0, p50_ms := 0, p95_ms := 0, p99_ms := 0, min_ms := 0, max_ms := 0 }
          , top_errors := [] } := by
  rw [analyzeE_pos _ _ _ hps]
  refine congrArg Except.ok ?_
  simp [analyzeUnpaged, buildReport, aggregateAll, initState, sortEndpointsDesc,
    sortErrorsDesc, calculatePercentile, round2_zero]

/-- C9 witness: the empty batch at the default page size 1000. -/
theorem analyze_empty_witness :
    analyzeE [] 0 1000 =
      .ok { total_requests := 0, error_rate_percentage := 0
          , status_code_distribution := [], method_distribution := []
          , top_endpoints := []
          , response_times :=
            { avg_ms := 0, p50_ms := 0, p95_ms := 0, p99_ms := 0, min_ms := 0, max_ms := 0 }
          , top_errors := [] } :=
  analyze_empty 1000 (by decide)

/-! ### Counter lemmas for the fold -/

theorem processEntry_status_codes (st : AnalyzerState) (log : LogEntry) :
    (processEntry st log).status_codes = bump st.status_codes log.status := by
  simp only [processEntry]
  cases log.response_time <;> split_ifs <;> rfl

theorem processEntry_errors (st : AnalyzerState) (log : LogEntry) :
    (processEntry st log).errors =
      st.errors + if 400 ≤ log.status ∧ log.status < 600 then 1 else 0 := by
  simp only [processEntry]
  cases log.response_time <;> split_ifs <;> rfl

theorem sum_bump {κ : Type} [DecidableEq κ] (m : List (κ × ℕ)) (k : κ) :
    ((bump m k).map (fun p => p.2)).sum = (m.map (fun p => p.2)).sum + 1 := by
  induction m with
  | nil => rfl
  | cons hd tl ih =>
    obtain ⟨k', v⟩ := hd
    rw [bump]
    split_ifs with h
    · simp only [List.map_cons, List.sum_cons]
      omega
    · simp only [List.map_cons, List.sum_cons, ih]
      omega

theorem foldl_status_sum : ∀ (l : List LogEntry) (st : AnalyzerState),
    ((l.foldl processEntry st).status_codes.map (fun p => p.2)).sum =
      (st.status_codes.map (fun p => p.2)).sum + l.length := by
  intro l
  induction l with
  | nil => intro st; simp
  | cons x xs ih =>
    intro st
    rw [List.foldl_cons, ih, processEntry_status_codes, sum_bump]
    simp only [List.length_cons]
    omega

theorem foldl_errors : ∀ (l : List LogEntry) (st : AnalyzerState),
    (l.foldl processEntry st).errors = st.errors + countErrors l := by
  intro l
  induction l with
  | nil => intro st; simp [countErrors]
  | cons x xs ih =>
    intro st
    rw [List.foldl_cons, ih, processEntry_errors]
    by_cases h : 400 ≤ x.status ∧ x.status < 600
    · simp [countErrors, List.filter_cons, h]
      omega
    · simp [countErrors, List.filter_cons, h]

/-- C5: after all pages are folded, the status-code distribution counts sum
to the number of entries that survived validation. -/
theorem status_count_invariant (logs : List RawRecord) (ps : ℤ) (hps : 0 < ps)
    (r : AnalysisReport) (hr : logAnalyzerRun (.list logs) ps = .ok r) :
    (r.status_code_distribution.map (fun p => p.2)).sum = (validateList logs).length := by
  simp only [logAnalyzerRun] at hr
  rw [analyzeE_pos _ _ _ hps] at hr
  simp only [Except.ok.injEq] at hr
  subst hr
  show ((aggregateAll (validateList logs)).status_codes.map (fun p => p.2)).sum = _
  rw [aggregateAll, foldl_status_sum]
  simp [initState]

/-- C5 witness: the sample batch at page size 2. -/
theorem status_count_invariant_witness :
    ((analyzeUnpaged sampleEntries 5).status_code_distribution.map (fun p => p.2)).sum =
      (validateList sampleLogs).length :=
  status_count_invariant sampleLogs 2 (by decide) _
    (analyzeE_pos sampleEntries 5 2 (by decide))

/-- C4: the reported error-rate percentage is
`round(errors / total_raw_count * 100, 2)` when the raw count is positive,
and `0` when it is zero, where `errors` counts validated entries with
`400 <= status < 600` and the raw count includes dropped records. -/
theorem error_rate_spec (entries : List LogEntry) (totalRequests : ℕ) (ps : ℤ)
    (hps : 0 < ps) (r : AnalysisReport) (hr : analyzeE entries totalRequests ps = .ok r) :
    r.error_rate_percentage =
      if 0 < totalRequests then
        round2 ((countErrors entries : ℚ) / (totalRequests : ℚ) * 100)
      else 0 := by
  rw [analyzeE_pos _ _ _ hps] at hr
  simp only [Except.ok.injEq] at hr
  subst hr
  show round2 (if 0 < totalRequests then
      ((aggregateAll entries).errors : ℚ) / (totalRequests : ℚ) * 100 else 0) = _
  have he : (aggregateAll entries).errors = countErrors entries := by
    rw [aggregateAll, foldl_errors]
    simp [initState]
  rw [he]
  split_ifs with h
  · rfl
  · exact round2_zero

/-- C4 witness: the sample batch (2 of 5 entries are errors). -/
theorem error_rate_witness :
    (analyzeUnpaged sampleEntries 5).error_rate_percentage =
      if 0 < 5 then round2 ((countErrors sampleEntries : ℚ) / ((5 : ℕ) : ℚ) * 100) else 0 :=
  error_rate_spec sampleEntries 5 7 (by decide) _ (analyzeE_pos sampleEntries 5 7 (by decide))

/-- C6: a record whose integer/float coercion fails is dropped whole while
every other record is still processed; validation is per-record (it
distributes over concatenation, so one malformed record never aborts the
batch) and preserves input order among survivors; in particular for
`[{"status": "oops"}, {"status": 200, "path": "/a"}]` the first record is
dropped and the report shows exactly one entry for `/a` with status 200. -/
theorem drop_and_continue :
    (∀ (pre post : List RawRecord) (bad : RawRecord), parseRecord bad = none →
        validateList (pre ++ bad :: post) = validateList (pre ++ post)) ∧
    (∀ l₁ l₂ : List RawRecord, validateList (l₁ ++ l₂) = validateList l₁ ++ validateList l₂) ∧
    validateList [badRec, goodRec] = [⟨"", "/a", 200, "UNKNOWN", none, none⟩] ∧
    logAnalyzerRun (.list [badRec, goodRec]) 1000 =
      .ok { total_requests := 2, error_rate_percentage := 0
          , status_code_distribution := [(200, 1)]
          , method_distribution := [("UNKNOWN", 1)]
          , top_endpoints := [("/a", ⟨1, [("UNKNOWN", 1)]⟩)]
          , response_times := ⟨0, 0, 0, 0, 0, 0⟩
          , top_errors := [] } := by
  refine ⟨?_, ?_, ?_, ?_⟩
  · intro pre post bad h
    simp [validateList, List.filterMap_append, List.filterMap_cons, h]
  · intro l₁ l₂
    simp [validateList, List.filterMap_append]
  · decide
  · have hval : validateList [badRec, goodRec] = [⟨"", "/a", 200, "UNKNOWN", none, none⟩] := by
      decide
    show analyzeE (validateList [badRec, goodRec]) 2 1000 = _
    rw [hval, analyzeE_pos _ _ _ (by decide)]
    refine congrArg Except.ok ?_
    have hagg : aggregateAll [⟨"", "/a", 200, "UNKNOWN", none, none⟩] =
        { status_codes := [(200, 1)], endpoints := [("/a", ⟨1, [("UNKNOWN", 1)]⟩)]
        , errors := 0, response_times := [], error_messages := []
        , methods := [("UNKNOWN", 1)] } := by decide
    rw [analyzeUnpaged, hagg]
    simp only [buildReport, sortEndpointsDesc, sortErrorsDesc]
    norm_num [calculatePercentile, round2_zero, List.insertionSort, List.orderedInsert]

/-- C6 witness: dropping the malformed record between two good ones. -/
theorem drop_and_continue_witness :
    validateList ([goodRec] ++ badRec :: [goodRec]) = validateList ([goodRec] ++ [goodRec]) :=
  drop_and_continue.1 [goodRec] [goodRec] badRec (by decide)

/-- C8: the shape error is raised if and only if the records argument is not
an ordered sequence, it is fatal to the whole call, and an ordered-sequence
input never produces it. -/
theorem invalid_input_shape (input : PyInput) (ps : ℤ) :
    (validateAndParseLogs input = .error "Input must be a list of log entries" ↔
      isOrderedSequence input = false) ∧
    (isOrderedSequence input = false →
      logAnalyzerRun input ps = .error "Input must be a list of log entries") ∧
    (isOrderedSequence input = true →
      logAnalyzerRun input ps ≠ .error "Input must be a list of log entries") := by
  cases input
  case list logs =>
    refine ⟨by simp [validateAndParseLogs, isOrderedSequence],
            by simp [isOrderedSequence], ?_⟩
    intro _
    show analyzeE (validateList logs) logs.length ps ≠ _
    rw [analyzeE, paginateLogs]
    by_cases h0 : ps = 0
    · simp only [h0, if_pos rfl]
      intro h
      exact absurd (Except.error.inj h) (by decide)
    · rw [if_neg h0]
      by_cases h1 : ps < 0
      · simp [h1]
      · simp [h1]
  all_goals
    exact ⟨by simp [validateAndParseLogs, isOrderedSequence],
           by simp [logAnalyzerRun],
           by simp [isOrderedSequence]⟩

/-- C8 witness: a mapping input fails with the shape error; a list input
does not produce it. -/
theorem invalid_input_shape_witness :
    logAnalyzerRun PyInput.dict 1000 = .error "Input must be a list of log entries" ∧
    logAnalyzerRun (.list []) 1000 ≠ .error "Input must be a list of log entries" :=
  ⟨(invalid_input_shape PyInput.dict 1000).2.1 (by decide),
   (invalid_input_shape (.list []) 1000).2.2 (by decide)⟩

/-! ### Stable descending sort lemmas for `top_endpoints` -/

/-- The stable sort keeps elements of any one count value in their original
(first-encountered) relative order. -/
theorem filter_insertionSort_count (l : List (String × EndpointData)) (c : ℕ) :
    (List.insertionSort countGE l).filter (fun e => e.2.count = c) =
      l.filter (fun e => e.2.count = c) := by
  induction l with
  | nil => rfl
  | cons x xs ih =>
    have hsplit : (List.insertionSort countGE xs).takeWhile (fun b => ¬countGE x b) ++
        (List.insertionSort countGE xs).dropWhile (fun b => ¬countGE x b) =
          List.insertionSort countGE xs :=
      List.takeWhile_append_dropWhile _ _
    rw [List.insertionSort, List.orderedInsert_eq_take_drop, List.filter_append]
    by_cases hx : x.2.count = c
    · have hnil : ((List.insertionSort countGE xs).takeWhile (fun b => ¬countGE x b)).filter
          (fun e => e.2.count = c) = [] := by
        refine List.filter_eq_nil_iff.mpr ?_
        intro a ha
        have hpa := List.mem_takeWhile_imp ha
        simp only [decide_eq_true_eq] at hpa
        have : x.2.count < a.2.count := lt_of_not_le hpa
        simp only [decide_eq_true_eq]
        omega
      rw [hnil, List.filter_cons_of_pos (by simpa using hx),
        List.filter_cons_of_pos (by simpa using hx)]
      have hdw : ((List.insertionSort countGE xs).dropWhile (fun b => ¬countGE x b)).filter
          (fun e => e.2.count = c) = xs.filter (fun e => e.2.count = c) := by
        have := congrArg (List.filter (fun e => e.2.count = c)) hsplit
        rw [List.filter_append, hnil, List.nil_append] at this
        rw [this, ih]
      rw [hdw, List.nil_append]
    · rw [List.filter_cons_of_neg (by simpa using hx),
        List.filter_cons_of_neg (by simpa using hx)]
      have := congrArg (List.filter (fun e => e.2.count = c)) hsplit
      rw [List.filter_append] at this
      rw [this, ih]

/-- In a descending-sorted list, anything outside the first `n` elements
counts no more than anything among them. -/
theorem sorted_take_le {S : List (String × EndpointData)}
    (hS : List.Sorted countGE S) (n : ℕ) :
    ∀ x ∈ S, x ∉ S.take n → ∀ y ∈ S.take n, x.2.count ≤ y.2.count := by
  intro x hx hnx y hy
  have hsplit : S.take n ++ S.drop n = S := List.take_append_drop n S
  have hx' : x ∈ S.drop n := by
    rcases List.mem_append.mp (hsplit ▸ hx) with h | h
    · exact absurd h hnx
    · exact h
  have hp : List.Pairwise countGE (S.take n ++ S.drop n) := by
    rw [List.take_append_drop]
    exact hS
  exact (List.pairwise_append.mp hp).2.2 y hy x hx'

/-- C7: `top_endpoints` is the first five entries of the stable descending
sort of the first-encountered-ordered endpoint table — sorted by descending
count, drawn from the table, every omitted path counts no more than any
listed one, ties keep first-seen order — and each listed endpoint carries
its total count with its per-method breakdown; in particular three
endpoints with equal counts appear in first-seen order. -/
theorem top_endpoints_spec (entries : List LogEntry) (totalRequests : ℕ) (ps : ℤ)
    (hps : 0 < ps) (r : AnalysisReport) (hr : analyzeE entries totalRequests ps = .ok r) :
    r.top_endpoints = (sortEndpointsDesc (aggregateAll entries).endpoints).take 5 ∧
    List.Sorted countGE (sortEndpointsDesc (aggregateAll entries).endpoints) ∧
    List.Perm (sortEndpointsDesc (aggregateAll entries).endpoints)
      (aggregateAll entries).endpoints ∧
    (∀ c : ℕ,
      (sortEndpointsDesc (aggregateAll entries).endpoints).filter (fun e => e.2.count = c) =
        ((aggregateAll entries).endpoints).filter (fun e => e.2.count = c)) ∧
    (∀ e ∈ r.top_endpoints, e ∈ (aggregateAll entries).endpoints) ∧
    (∀ x ∈ (aggregateAll entries).endpoints, x ∉ r.top_endpoints →
      ∀ y ∈ r.top_endpoints, x.2.count ≤ y.2.count) ∧
    (analyzeUnpaged tieEntries 3).top_endpoints =
      [("/a", ⟨1, [("GET", 1)]⟩), ("/b", ⟨1, [("GET", 1)]⟩), ("/c", ⟨1, [("GET", 1)]⟩)] := by
  rw [analyzeE_pos _ _ _ hps] at hr
  simp only [Except.ok.injEq] at hr
  subst hr
  have htop : (analyzeUnpaged entries totalRequests).top_endpoints =
      (sortEndpointsDesc (aggregateAll entries).endpoints).take 5 := rfl
  refine ⟨htop, List.sorted_insertionSort countGE _, List.perm_insertionSort countGE _,
    fun c => filter_insertionSort_count _ c, ?_, ?_, ?_⟩
  · intro e he
    rw [htop] at he
    exact (List.perm_insertionSort countGE _).subset (List.take_subset 5 _ he)
  · intro x hx hnx y hy
    rw [htop] at hnx hy
    have hxS : x ∈ sortEndpointsDesc (aggregateAll entries).endpoints :=
      (List.mem_insertionSort countGE).mpr hx
    exact sorted_take_le (List.sorted_insertionSort countGE _) 5 x hxS hnx y hy
  · decide

/-- C7 witness: the three-way tie at page size 1000. -/
theorem top_endpoints_witness :
    (analyzeUnpaged tieEntries 3).top_endpoints =
      (sortEndpointsDesc (aggregateAll tieEntries).endpoints).take 5 :=
  (top_endpoints_spec tieEntries 3 1000 (by decide) _
    (analyzeE_pos tieEntries 3 1000 (by decide))).1

/-! ### Percentile lemmas -/

theorem pySorted_length (l : List ℚ) : (pySorted l).length = l.length :=
  (List.perm_insertionSort _ l).length_eq

theorem foldl_min_le_init (a : ℚ) (l : List ℚ) : l.foldl min a ≤ a := by
  induction l generalizing a with
  | nil => exact le_refl a
  | cons x xs ih =>
    rw [List.foldl_cons]
    exact le_trans (ih (min a x)) (min_le_left a x)

theorem foldl_min_le_mem {x : ℚ} (l : List ℚ) (a : ℚ) (hx : x ∈ l) : l.foldl min a ≤ x := by
  induction l generalizing a with
  | nil => cases hx
  | cons y ys ih =>
    rw [List.foldl_cons]
    rcases List.mem_cons.mp hx with h | h
    · subst h
      exact le_trans (foldl_min_le_init _ _) (min_le_right a x)
    · exact ih _ h

theorem pyMin_le_mem {x : ℚ} {l : List ℚ} (hx : x ∈ l) : pyMin l ≤ x := by
  cases l with
  | nil => cases hx
  | cons y ys =>
    show ys.foldl min y ≤ x
    rcases List.mem_cons.mp hx with h | h
    · subst h
      exact foldl_min_le_init _ _
    · exact foldl_min_le_mem _ _ h

theorem init_le_foldl_max (a : ℚ) (l : List ℚ) : a ≤ l.foldl max a := by
  induction l generalizing a with
  | nil => exact le_refl a
  | cons x xs ih =>
    rw [List.foldl_cons]
    exact le_trans (le_max_left a x) (ih (max a x))

theorem mem_le_foldl_max {x : ℚ} (l : List ℚ) (a : ℚ) (hx : x ∈ l) : x ≤ l.foldl max a := by
  induction l generalizing a with
  | nil => cases hx
  | cons y ys ih =>
    rw [List.foldl_cons]
    rcases List.mem_cons.mp hx with h | h
    · subst h
      exact le_trans (le_max_right a x) (init_le_foldl_max _ _)
    · exact ih _ h

theorem mem_le_pyMax {x : ℚ} {l : List ℚ} (hx : x ∈ l) : x ≤ pyMax l := by
  cases l with
  | nil => cases hx
  | cons y ys =>
    show x ≤ ys.foldl max y
    rcases List.mem_cons.mp hx with h | h
    · subst h
      exact init_le_foldl_max _ _
    · exact mem_le_foldl_max _ _ h

/-- `_calculate_percentile` on a non-empty sample list and a non-negative
percentile, with Python's truncation and indexing resolved. -/
theorem calculatePercentile_eq (l : List ℚ) (p : ℚ) (hl : l ≠ []) (hp0 : 0 ≤ p) :
    calculatePercentile l p =
      if ⌊((l.length : ℚ) - 1) * (p / 100)⌋ = ⌈((l.length : ℚ) - 1) * (p / 100)⌉ then
        (pySorted l).getD (⌊((l.length : ℚ) - 1) * (p / 100)⌋).toNat 0
      else
        (pySorted l).getD (⌊((l.length : ℚ) - 1) * (p / 100)⌋).toNat 0 *
            ((⌈((l.length : ℚ) - 1) * (p / 100)⌉ : ℚ) - ((l.length : ℚ) - 1) * (p / 100)) +
          (pySorted l).getD (⌈((l.length : ℚ) - 1) * (p / 100)⌉).toNat 0 *
            (((l.length : ℚ) - 1) * (p / 100) - (⌊((l.length : ℚ) - 1) * (p / 100)⌋ : ℚ)) := by
  have hn : 1 ≤ l.length := List.length_pos.mpr hl
  have hn1 : (1 : ℚ) ≤ (l.length : ℚ) := by exact_mod_cast hn
  have hk0 : 0 ≤ ((l.length : ℚ) - 1) * (p / 100) :=
    mul_nonneg (by linarith) (div_nonneg hp0 (by norm_num))
  simp only [calculatePercentile, if_neg hl, pySorted_length]
  have htr : pyTrunc (((l.length : ℚ) - 1) * (p / 100)) =
      ⌊((l.length : ℚ) - 1) * (p / 100)⌋ := by
    rw [pyTrunc, if_neg (not_lt.mpr hk0)]
  have hif : pyIndex (pySorted l) ⌊((l.length : ℚ) - 1) * (p / 100)⌋ =
      (pySorted l).getD (⌊((l.length : ℚ) - 1) * (p / 100)⌋).toNat 0 := by
    rw [pyIndex, if_pos (Int.floor_nonneg.mpr hk0)]
  have hic : pyIndex (pySorted l) ⌈((l.length : ℚ) - 1) * (p / 100)⌉ =
      (pySorted l).getD (⌈((l.length : ℚ) - 1) * (p / 100)⌉).toNat 0 := by
    rw [pyIndex, if_pos (Int.ceil_nonneg hk0)]
  rw [htr, hif, hic]

/-- The target rank `k` stays at most `n - 1` when `p ≤ 100`. -/
theorem percentile_ceil_le (l : List ℚ) (p : ℚ) (hl : l ≠ []) (hp1 : p ≤ 100) :
    ⌈((l.length : ℚ) - 1) * (p / 100)⌉ ≤ (l.length : ℤ) - 1 := by
  have hn : 1 ≤ l.length := List.length_pos.mpr hl
  have hn1 : (1 : ℚ) ≤ (l.length : ℚ) := by exact_mod_cast hn
  have hk1 : ((l.length : ℚ) - 1) * (p / 100) ≤ (l.length : ℚ) - 1 :=
    mul_le_of_le_one_right (by linarith) (by linarith [(div_le_one (by norm_num : (0:ℚ) < 100)).mpr hp1])
  rw [Int.ceil_le]
  push_cast
  linarith

/-- C2: the computed percentile follows the interpolation formula on the
sorted samples — the order statistic at `k = (n-1)*(p/100)` when `k` is an
integer, and `s[floor k]*(ceil k - k) + s[ceil k]*(k - floor k)` otherwise;
in particular p50 of `[10, 20, 30, 40]` is `25`. -/
theorem percentile_formula (l : List ℚ) (p : ℚ) (hl : l ≠ []) (hp0 : 0 ≤ p)
    (_hp1 : p ≤ 100) :
    (∀ m : ℤ, ((l.length : ℚ) - 1) * (p / 100) = (m : ℚ) →
        calculatePercentile l p = (pySorted l).getD m.toNat 0) ∧
    ((¬∃ m : ℤ, ((l.length : ℚ) - 1) * (p / 100) = (m : ℚ)) →
        calculatePercentile l p =
          (pySorted l).getD (⌊((l.length : ℚ) - 1) * (p / 100)⌋).toNat 0 *
              ((⌈((l.length : ℚ) - 1) * (p / 100)⌉ : ℚ) - ((l.length : ℚ) - 1) * (p / 100)) +
            (pySorted l).getD (⌈((l.length : ℚ) - 1) * (p / 100)⌉).toNat 0 *
              (((l.length : ℚ) - 1) * (p / 100) - (⌊((l.length : ℚ) - 1) * (p / 100)⌋ : ℚ))) ∧
    calculatePercentile [10, 20, 30, 40] 50 = 25 := by
  refine ⟨?_, ?_, ?_⟩
  · intro m hm
    rw [calculatePercentile_eq l p hl hp0]
    have hf : ⌊((l.length : ℚ) - 1) * (p / 100)⌋ = m := by
      rw [hm]
      exact Int.floor_intCast m
    have hc : ⌈((l.length : ℚ) - 1) * (p / 100)⌉ = m := by
      rw [hm]
      exact Int.ceil_intCast m
    rw [if_pos (hf.trans hc.symm), hf]
  · intro hne
    rw [calculatePercentile_eq l p hl hp0]
    have hne2 : ⌊((l.length : ℚ) - 1) * (p / 100)⌋ ≠ ⌈((l.length : ℚ) - 1) * (p / 100)⌉ := by
      intro h
      refine hne ⟨⌊((l.length : ℚ) - 1) * (p / 100)⌋, ?_⟩
      have h1 := Int.floor_le (((l.length : ℚ) - 1) * (p / 100))
      have h2 := Int.le_ceil (((l.length : ℚ) - 1) * (p / 100))
      rw [← h] at h2
      linarith
    rw [if_neg hne2]
  · have hs : pySorted [10, 20, 30, 40] = [10, 20, 30, 40] := by
      norm_num [pySorted, List.insertionSort, List.orderedInsert]
    rw [calculatePercentile_eq _ _ (by simp) (by norm_num)]
    have hk : ((([10, 20, 30, 40] : List ℚ).length : ℚ) - 1) * (50 / 100) = 3 / 2 := by
      norm_num
    rw [hk, hs]
    have hfl : ⌊(3 / 2 : ℚ)⌋ = 1 := by norm_num
    have hcl : ⌈(3 / 2 : ℚ)⌉ = 2 := by
      rw [Int.ceil_eq_iff]
      norm_num
    rw [hfl, hcl, if_neg (by decide : (1 : ℤ) ≠ 2)]
    norm_num [List.getD, show (2 : ℤ).toNat = 2 from rfl, show (1 : ℤ).toNat = 1 from rfl]

/-- C2 witness: p100 of the sample hits the last order statistic exactly. -/
theorem percentile_formula_witness :
    calculatePercentile [10, 20, 30, 40] 100 = (pySorted [10, 20, 30, 40]).getD (3 : ℤ).toNat 0 :=
  (percentile_formula [10, 20, 30, 40] 100 (by simp) (by norm_num) (by norm_num)).1 3
    (by norm_num)

/-- C10: for a non-empty sample list and `0 ≤ p ≤ 100` the computed
percentile lies between the minimum and the maximum of the samples, and with
exactly one sample every percentile equals that sample. -/
theorem percentile_bounded (l : List ℚ) (p : ℚ) (hl : l ≠ []) (hp0 : 0 ≤ p)
    (hp1 : p ≤ 100) :
    pyMin l ≤ calculatePercentile l p ∧ calculatePercentile l p ≤ pyMax l ∧
    (∀ x : ℚ, l = [x] → calculatePercentile l p = x) := by
  have hn : 1 ≤ l.length := List.length_pos.mpr hl
  have hn1 : (1 : ℚ) ≤ (l.length : ℚ) := by exact_mod_cast hn
  have hk0 : 0 ≤ ((l.length : ℚ) - 1) * (p / 100) :=
    mul_nonneg (by linarith) (div_nonneg hp0 (by norm_num))
  have hfl0 : 0 ≤ ⌊((l.length : ℚ) - 1) * (p / 100)⌋ := Int.floor_nonneg.mpr hk0
  have hcle : ⌈((l.length : ℚ) - 1) * (p / 100)⌉ ≤ (l.length : ℤ) - 1 :=
    percentile_ceil_le l p hl hp1
  have hfc : ⌊((l.length : ℚ) - 1) * (p / 100)⌋ ≤ ⌈((l.length : ℚ) - 1) * (p / 100)⌉ :=
    Int.floor_le_ceil _
  have hsl : (pySorted l).length = l.length := pySorted_length l
  have hfi : (⌊((l.length : ℚ) - 1) * (p / 100)⌋).toNat < (pySorted l).length := by
    rw [hsl]
    omega
  have hci : (⌈((l.length : ℚ) - 1) * (p / 100)⌉).toNat < (pySorted l).length := by
    rw [hsl]
    omega
  have hmemf : (pySorted l).getD (⌊((l.length : ℚ) - 1) * (p / 100)⌋).toNat 0 ∈ l := by
    rw [List.getD_eq_getElem (pySorted l) 0 hfi]
    exact (List.mem_insertionSort _).mp (List.getElem_mem hfi)
  have hmemc : (pySorted l).getD (⌈((l.length : ℚ) - 1) * (p / 100)⌉).toNat 0 ∈ l := by
    rw [List.getD_eq_getElem (pySorted l) 0 hci]
    exact (List.mem_insertionSort _).mp (List.getElem_mem hci)
  have hbound : pyMin l ≤ calculatePercentile l p ∧ calculatePercentile l p ≤ pyMax l := by
    rw [calculatePercentile_eq l p hl hp0]
    set k : ℚ := ((l.length : ℚ) - 1) * (p / 100) with hkdef
    set a := (pySorted l).getD (⌊k⌋).toNat 0 with hadef
    set b := (pySorted l).getD (⌈k⌉).toNat 0 with hbdef
    split_ifs with heq
    · exact ⟨pyMin_le_mem hmemf, mem_le_pyMax hmemf⟩
    · have hc1 : ⌈k⌉ = ⌊k⌋ + 1 := by
        have := Int.ceil_le_floor_add_one k
        omega
      have hw1 : 0 ≤ (⌈k⌉ : ℚ) - k := by
        linarith [Int.le_ceil k]
      have hw2 : 0 ≤ k - (⌊k⌋ : ℚ) := by
        linarith [Int.floor_le k]
      have hsum : ((⌈k⌉ : ℚ) - k) + (k - (⌊k⌋ : ℚ)) = 1 := by
        have : (⌈k⌉ : ℚ) = (⌊k⌋ : ℚ) + 1 := by
          exact_mod_cast congrArg (fun z : ℤ => (z : ℚ)) hc1
        linarith
      constructor
      · have ha := pyMin_le_mem hmemf
        have hb := pyMin_le_mem hmemc
        have h1 := mul_le_mul_of_nonneg_right ha hw1
        have h2 := mul_le_mul_of_nonneg_right hb hw2
        have hm : pyMin l * ((⌈k⌉ : ℚ) - k) + pyMin l * (k - (⌊k⌋ : ℚ)) = pyMin l := by
          rw [← mul_add, hsum, mul_one]
        linarith
      · have ha := mem_le_pyMax hmemf
        have hb := mem_le_pyMax hmemc
        have h1 := mul_le_mul_of_nonneg_right ha hw1
        have h2 := mul_le_mul_of_nonneg_right hb hw2
        have hm : pyMax l * ((⌈k⌉ : ℚ) - k) + pyMax l * (k - (⌊k⌋ : ℚ)) = pyMax l := by
          rw [← mul_add, hsum, mul_one]
        linarith
  refine ⟨hbound.1, hbound.2, ?_⟩
  intro x hx
  subst hx
  rw [calculatePercentile_eq _ _ hl hp0]
  have hk : ((([x] : List ℚ).length : ℚ) - 1) * (p / 100) = 0 := by
    simp
  rw [hk]
  simp [pySorted, List.insertionSort, List.orderedInsert]

/-- C10 witness: bounds at the four-sample list and p95, and the
single-sample case. -/
theorem percentile_bounded_witness :
    (pyMin [10, 20, 30, 40] ≤ calculatePercentile [10, 20, 30, 40] 95 ∧
      calculatePercentile [10, 20, 30, 40] 95 ≤ pyMax [10, 20, 30, 40]) ∧
    calculatePercentile [7] 30 = 7 :=
  ⟨⟨(percentile_bounded [10, 20, 30, 40] 95 (by simp) (by norm_num) (by norm_num)).1,
    (percentile_bounded [10, 20, 30, 40] 95 (by simp) (by norm_num) (by norm_num)).2.1⟩,
   (percentile_bounded [7] 30 (by simp) (by norm_num) (by norm_num)).2.2 7 rfl⟩

end LambdaDemo
